import Mathlib

/-!
# Shallow embedding of the scikit-rf network-analysis core

The repository's shippable sources here are the documentation notebooks
(`src/unnamed/part_000` … `part_003`), which are callers of the library:
the implementation of `skrf.network` / `skrf.circuit` is not under `src/`.
Following the spec (`spec.md`), the core data model and operations are
modelled from the spec's own algorithm descriptions, with the notebooks'
worked examples used as concrete anchors.

Numbers: the library computes with IEEE complex floats; the embedding uses
exact arithmetic over an arbitrary field `K` (the rationals `ℚ` in all
concrete witnesses).  Square roots are not field operations, so wherever a
formula of the spec uses `√z0` the chosen root is passed explicitly and
constrained by a hypothesis `r ^ 2 = z0`.
-/

namespace Skrf

/-- Modelled from the spec: a two-port scattering matrix at one frequency
point, the `(2, 2)` slice of `Network.s`.  Entry `sij` is the wave ratio
from port `j` to port `i`. -/
structure S2 (K : Type) where
  s11 : K
  s12 : K
  s21 : K
  s22 : K
  deriving DecidableEq, Repr

variable {K : Type} [Field K]

/-- Modelled from the spec: the ideal matched thru, `S = [[0,1],[1,0]]`
(the "identity thru" of §6/§8). -/
def thru2 : S2 K := ⟨0, 1, 1, 0⟩

/-- Modelled from the spec (§4.2): cascading two 2-ports `a ** b` is the
pairwise connection of port 1 of `a` to port 0 of `b`; these are the
signal-flow reduction formulas specialised to that case. -/
def cascade2 (a b : S2 K) : S2 K :=
  ⟨a.s11 + a.s12 * a.s21 * b.s11 / (1 - a.s22 * b.s11),
   a.s12 * b.s12 / (1 - a.s22 * b.s11),
   b.s21 * a.s21 / (1 - a.s22 * b.s11),
   b.s22 + b.s12 * b.s21 * a.s22 / (1 - a.s22 * b.s11)⟩

/-- Modelled from the spec: `Network.inv`, the 2-port whose cascade with the
original is the identity thru, obtained by inverting the wave-transfer
(T) matrix; in scattering parameters it is
`(1/Δ)·[[-s11, s21],[s12, -s22]]` with `Δ = s12·s21 - s11·s22`. -/
def inv2 (a : S2 K) : S2 K :=
  ⟨-a.s11 / (a.s12 * a.s21 - a.s11 * a.s22),
   a.s21 / (a.s12 * a.s21 - a.s11 * a.s22),
   a.s12 / (a.s12 * a.s21 - a.s11 * a.s22),
   -a.s22 / (a.s12 * a.s21 - a.s11 * a.s22)⟩

/-! ## Parameter conversions (spec §4.1)

Modelled from the spec: each conversion is "a closed-form matrix
expression per frequency point".  `s2z`/`z2s` are the standard bilinear
transform at uniform real reference impedance `z0`; `s2y`/`y2s` go through
the impedance matrix (`Y = Z⁻¹`); `s2a`/`a2s`, `s2t`/`t2s`, `s2h`/`h2s`
are the standard two-port formulas (`T` is impedance-independent). -/

/-- Executable nonsingular inverse: `det⁻¹ • adjugate`.  Agrees with
Mathlib's noncomputable `Matrix.inv` (see `invA_eq_inv`). -/
def invA {n : ℕ} (A : Matrix (Fin n) (Fin n) K) : Matrix (Fin n) (Fin n) K :=
  A.det⁻¹ • A.adjugate

/-- Modelled from the spec: `to_Z`, the bilinear transform
`Z = z0 (I + S)(I − S)⁻¹` at uniform reference impedance `z0`. -/
def s2z {n : ℕ} (S : Matrix (Fin n) (Fin n) K) (z0 : K) : Matrix (Fin n) (Fin n) K :=
  z0 • ((1 + S) * invA (1 - S))

/-- Modelled from the spec: `from_Z`, the inverse bilinear transform
`S = (Z − z0 I)(Z + z0 I)⁻¹`. -/
def z2s {n : ℕ} (Z : Matrix (Fin n) (Fin n) K) (z0 : K) : Matrix (Fin n) (Fin n) K :=
  (Z - z0 • 1) * invA (Z + z0 • 1)

/-- Modelled from the spec: `to_Y`, the admittance matrix `Y = Z⁻¹`. -/
def s2y {n : ℕ} (S : Matrix (Fin n) (Fin n) K) (z0 : K) : Matrix (Fin n) (Fin n) K :=
  invA (s2z S z0)

/-- Modelled from the spec: `from_Y = from_Z ∘ (·⁻¹)`. -/
def y2s {n : ℕ} (Y : Matrix (Fin n) (Fin n) K) (z0 : K) : Matrix (Fin n) (Fin n) K :=
  z2s (invA Y) z0

/-- Modelled from the spec: `to_T`, the wave-transfer (T) matrix of a
two-port, `T = (1/s21)·[[s12 s21 − s11 s22, s11], [−s22, 1]]`. -/
def s2t (a : S2 K) : Matrix (Fin 2) (Fin 2) K :=
  !![(a.s12 * a.s21 - a.s11 * a.s22) / a.s21, a.s11 / a.s21;
     -a.s22 / a.s21, 1 / a.s21]

/-- Modelled from the spec: `from_T`, the scattering parameters of a
two-port given its wave-transfer matrix. -/
def t2s (m : Matrix (Fin 2) (Fin 2) K) : S2 K :=
  ⟨m 0 1 / m 1 1,
   (m 0 0 * m 1 1 - m 0 1 * m 1 0) / m 1 1,
   1 / m 1 1,
   -(m 1 0) / m 1 1⟩

/-- Modelled from the spec: `to_ABCD`, the chain matrix of a two-port at
uniform reference impedance `z0`, as the record `(A, B, C, D)`. -/
def s2a (s : S2 K) (z0 : K) : S2 K :=
  ⟨((1 + s.s11) * (1 - s.s22) + s.s12 * s.s21) / (2 * s.s21),
   z0 * ((1 + s.s11) * (1 + s.s22) - s.s12 * s.s21) / (2 * s.s21),
   ((1 - s.s11) * (1 - s.s22) - s.s12 * s.s21) / (2 * s.s21 * z0),
   ((1 - s.s11) * (1 + s.s22) + s.s12 * s.s21) / (2 * s.s21)⟩

/-- Modelled from the spec: `from_ABCD` at uniform reference impedance. -/
def a2s (m : S2 K) (z0 : K) : S2 K :=
  ⟨(m.s11 + m.s12 / z0 - m.s21 * z0 - m.s22) /
     (m.s11 + m.s12 / z0 + m.s21 * z0 + m.s22),
   2 * (m.s11 * m.s22 - m.s12 * m.s21) /
     (m.s11 + m.s12 / z0 + m.s21 * z0 + m.s22),
   2 / (m.s11 + m.s12 / z0 + m.s21 * z0 + m.s22),
   (-m.s11 + m.s12 / z0 - m.s21 * z0 + m.s22) /
     (m.s11 + m.s12 / z0 + m.s21 * z0 + m.s22)⟩

/-- Modelled from the spec: `to_H`, the hybrid parameters of a two-port at
uniform reference impedance `z0`, as the record `(h11, h12, h21, h22)`. -/
def s2h (s : S2 K) (z0 : K) : S2 K :=
  ⟨z0 * ((1 + s.s11) * (1 + s.s22) - s.s12 * s.s21) /
     ((1 - s.s11) * (1 + s.s22) + s.s12 * s.s21),
   2 * s.s12 / ((1 - s.s11) * (1 + s.s22) + s.s12 * s.s21),
   -2 * s.s21 / ((1 - s.s11) * (1 + s.s22) + s.s12 * s.s21),
   ((1 - s.s11) * (1 - s.s22) - s.s12 * s.s21) /
     (z0 * ((1 - s.s11) * (1 + s.s22) + s.s12 * s.s21))⟩

/-- Modelled from the spec: `from_H` at uniform reference impedance. -/
def h2s (h : S2 K) (z0 : K) : S2 K :=
  ⟨((h.s11 / z0 - 1) * (h.s22 * z0 + 1) - h.s12 * h.s21) /
     ((h.s11 / z0 + 1) * (h.s22 * z0 + 1) - h.s12 * h.s21),
   2 * h.s12 / ((h.s11 / z0 + 1) * (h.s22 * z0 + 1) - h.s12 * h.s21),
   -2 * h.s21 / ((h.s11 / z0 + 1) * (h.s22 * z0 + 1) - h.s12 * h.s21),
   ((1 + h.s11 / z0) * (1 - h.s22 * z0) + h.s12 * h.s21) /
     ((h.s11 / z0 + 1) * (h.s22 * z0 + 1) - h.s12 * h.s21)⟩

/-! ## Connection Engine (spec §4.2)

Modelled from the spec: pairwise port connection by sub-network growth.
An N-port network is an untyped scattering function `s` (entries beyond the
port count are irrelevant) together with the per-port reference-impedance
list `z0`, whose length is the port count.  Connection forms the
block-diagonal combined matrix, then applies the standard signal-flow
reduction eliminating the two joined rows/columns, and re-keys the
remaining port impedances in the preserved order. -/

/-- An N-port network at one frequency point: scattering entries and the
per-port reference impedance list (`z0.length` is the port count). -/
structure NetworkG (K : Type) where
  s : ℕ → ℕ → K
  z0 : List K

/-- Number of ports. -/
def NetworkG.np (A : NetworkG K) : ℕ := A.z0.length

/-- Block-diagonal scattering matrix of two uncoupled networks
(spec §4.2 step 2). -/
def blockS (A B : NetworkG K) : ℕ → ℕ → K := fun i j =>
  if i < A.np ∧ j < A.np then A.s i j
  else if A.np ≤ i ∧ A.np ≤ j then B.s (i - A.np) (j - A.np) else 0

/-- The two uncoupled networks as one `(P_A + P_B)`-port network. -/
def blockNet (A B : NetworkG K) : NetworkG K := ⟨blockS A B, A.z0 ++ B.z0⟩

/-- Index embedding: the position in the original port list of result
port `g` after ports `k < l` have been deleted. -/
def restore2 (k l g : ℕ) : ℕ :=
  if g < k then g else if g < l - 1 then g + 1 else g + 2

/-- Modelled from the spec (§4.2 step 3): the standard signal-flow
reduction formula eliminating the two connected ports `k` and `l` of a
single network (a perfectly matched reflectionless short between them). -/
def innerS (S : ℕ → ℕ → K) (k l : ℕ) : ℕ → ℕ → K := fun gi gj =>
  S (restore2 k l gi) (restore2 k l gj) +
    (S k (restore2 k l gj) * S (restore2 k l gi) l * (1 - S l k) +
     S l (restore2 k l gj) * S (restore2 k l gi) k * (1 - S k l) +
     S k (restore2 k l gj) * S l l * S (restore2 k l gi) k +
     S l (restore2 k l gj) * S k k * S (restore2 k l gi) l) /
    ((1 - S k l) * (1 - S l k) - S k k * S l l)

/-- Innerconnect: join ports `k < l` of a single network, removing both
from the port list (spec §4.2 steps 3–4). -/
def innerNet (C : NetworkG K) (k l : ℕ) : NetworkG K :=
  ⟨innerS C.s k l, (C.z0.eraseIdx l).eraseIdx k⟩

/-- Iterated pairwise reduction: `m` is the number of ports of the first
network still present; round `t` joins current ports `(i, m + j)`, which
are original ports `(i + t)` of A and `(j + t)` of B after the index
shifts caused by the earlier removals. -/
def connectIter (i j : ℕ) : NetworkG K → ℕ → ℕ → NetworkG K
  | C, _, 0 => C
  | C, m, n + 1 => connectIter i j (innerNet C i (m + j)) (m - 1) n

/-- Modelled from the spec: `connect(A, i, B, j, num)` — join `num`
consecutive ports of A starting at `i` to `num` consecutive ports of B
starting at `j`, by `num` repetitions of the pairwise reduction. -/
def connectNum (A : NetworkG K) (i : ℕ) (B : NetworkG K) (j : ℕ) (num : ℕ) : NetworkG K :=
  connectIter i j (blockNet A B) A.np num

/-- Modelled from the spec: `connect(A, i, B, j)` for matched reference
impedances (the default `num = 1`). -/
def connectPlain (A : NetworkG K) (i : ℕ) (B : NetworkG K) (j : ℕ) : NetworkG K :=
  connectNum A i B j 1

/-- Modelled from the spec (§4.2 step 1): the ideal lossless two-port
impedance-mismatch network between reference impedances `z1` and `z2`,
`S = [[ρ, t], [t, −ρ]]` with `ρ = (z2 − z1)/(z1 + z2)`; square roots are
not field operations, so the transmission coefficient `t` (ideally
satisfying `t² = 1 − ρ²`) is passed explicitly. -/
def mismatchNet (z1 z2 t : K) : NetworkG K :=
  ⟨fun i j =>
    if i = 0 ∧ j = 0 then (z2 - z1) / (z1 + z2)
    else if (i = 0 ∧ j = 1) ∨ (i = 1 ∧ j = 0) then t
    else if i = 1 ∧ j = 1 then -((z2 - z1) / (z1 + z2)) else 0,
   [z1, z2]⟩

/-- Modelled from the spec: full `connect` — if the two joined ports have
different reference impedances, the ideal mismatch two-port is inserted
between them first; otherwise the plain matched connection is made. -/
def connectG [DecidableEq K] (A : NetworkG K) (i : ℕ) (B : NetworkG K) (j : ℕ)
    (t : K) : NetworkG K :=
  if A.z0.getD i 0 = B.z0.getD j 0 then connectPlain A i B j
  else
    connectPlain
      (connectPlain A i (mismatchNet (A.z0.getD i 0) (B.z0.getD j 0) t) 0)
      (A.np - 1) B j

/-- Modelled from the spec: the ideal matched thru as a network, both
ports at reference impedance `z`. -/
def thruNet (z : K) : NetworkG K :=
  ⟨fun i j => if (i = 0 ∧ j = 1) ∨ (i = 1 ∧ j = 0) then 1 else 0, [z, z]⟩

/-- Modelled from the spec: a reflectionless (matched) one-port load at
reference impedance `z` (`S = 0`). -/
def matchedLoad (z : K) : NetworkG K := ⟨fun _ _ => 0, [z]⟩

/-- Removing `n` consecutive ports starting at index `i` (repeated
`eraseIdx` at the same position). -/
def eraseN (xs : List K) (i : ℕ) : ℕ → List K
  | 0 => xs
  | n + 1 => eraseN (xs.eraseIdx i) i n

/-! ## Circuit — netlist-based global solver (spec §4.3)

Modelled from the spec: a netlist is a list of nodes, each node an ordered
list of `(component index, port index)` pairs; the global port space is
the concatenation of all node member lists.  The solver builds the global
block-diagonal scattering matrix `S`, the interconnection matrix `C`
(per-node reflectionless-junction blocks, here for matched member
impedances: `2/k − δ` on a `k`-member node), and solves
`a = (I − C·S)⁻¹ C e` for the wave amplitudes; the reduced network is the
block of `(I − C·S)⁻¹ C` at the external-`Port` global indices, in
netlist-declaration order.  Matrices are lists of rows, with an
executable Gauss-Jordan inverse. -/

/-- A matrix as a list of rows. -/
abbrev MatL (K : Type) : Type := List (List K)

/-- Entry access with zero default. -/
def matGet (M : MatL K) (i j : ℕ) : K := (M.getD i []).getD j 0

/-- Build an `n × n` matrix from an entry function. -/
def matOfFn (n : ℕ) (f : ℕ → ℕ → K) : MatL K :=
  (List.range n).map fun i => (List.range n).map (f i)

/-- Matrix product of two `n × n` matrices. -/
def matMul (n : ℕ) (A B : MatL K) : MatL K :=
  matOfFn n fun i j => ((List.range n).map fun k => matGet A i k * matGet B k j).sum

/-- Identity matrix. -/
def matId (n : ℕ) : MatL K := matOfFn n fun i j => if i = j then 1 else 0

/-- Entrywise difference. -/
def matSub (n : ℕ) (A B : MatL K) : MatL K :=
  matOfFn n fun i j => matGet A i j - matGet B i j

/-- The `(i, j)` minor: delete row `i` and column `j`. -/
def minorM (M : MatL K) (i j : ℕ) : MatL K :=
  (M.eraseIdx i).map fun row => row.eraseIdx j

/-- Determinant of an `n × n` list matrix by Laplace expansion along the
first row. -/
def detL : ℕ → MatL K → K
  | 0, _ => 1
  | n + 1, M =>
    ((List.range (n + 1)).map fun j =>
      (-1 : K) ^ j * matGet M 0 j * detL n (minorM M 0 j)).sum

/-- Adjugate of an `n × n` list matrix. -/
def adjL (n : ℕ) (M : MatL K) : MatL K :=
  matOfFn n fun i j => (-1 : K) ^ (i + j) * detL (n - 1) (minorM M j i)

/-- Executable inverse of an `n × n` list matrix, `adjugate / det`;
`none` when singular. -/
def matInv [DecidableEq K] (n : ℕ) (M : MatL K) : Option (MatL K) :=
  if detL n M = 0 then none
  else some (matOfFn n fun i j => matGet (adjL n M) i j / detL n M)

/-- A circuit component: a name, the external-`Port` tag, a port count and
the scattering entries at the frequency point under consideration
(spec §4.3 step 1 and §9: `Port` pseudo-networks are ordinary matched
one-ports tagged for output-port ordering). -/
structure CompG (K : Type) where
  name : String
  isPort : Bool
  np : ℕ
  s : ℕ → ℕ → K

instance : Inhabited (CompG K) := ⟨⟨"", false, 0, fun _ _ => 0⟩⟩

/-- The global port list: the netlist's node member lists concatenated
(spec §4.3 step 1). -/
def gports (nodes : List (List (ℕ × ℕ))) : List (ℕ × ℕ) := nodes.flatten

/-- Which node a global port index belongs to. -/
def nodeOfAux : List (List (ℕ × ℕ)) → ℕ → ℕ → ℕ
  | [], _, acc => acc
  | node :: rest, g, acc =>
    if g < node.length then acc else nodeOfAux rest (g - node.length) (acc + 1)

/-- Node index of global port `g`. -/
def nodeOf (nodes : List (List (ℕ × ℕ))) (g : ℕ) : ℕ := nodeOfAux nodes g 0

/-- Global block-diagonal scattering entry (spec §4.3 step 2). -/
def globalS (comps : List (CompG K)) (gp : List (ℕ × ℕ)) : ℕ → ℕ → K := fun g1 g2 =>
  let e1 := gp.getD g1 (0, 0)
  let e2 := gp.getD g2 (0, 0)
  if e1.1 = e2.1 then (comps.getD e1.1 default).s e1.2 e2.2 else 0

/-- Interconnection-matrix entry (spec §4.3 step 3): on a `k`-member node
the reflectionless-junction block is `2/k − δ`, zero across nodes. -/
def interC (nodes : List (List (ℕ × ℕ))) : ℕ → ℕ → K := fun g1 g2 =>
  if nodeOf nodes g1 = nodeOf nodes g2 then
    2 / ((nodes.getD (nodeOf nodes g1) []).length : K) - (if g1 = g2 then 1 else 0)
  else 0

/-- Modelled from the spec (§4.3 steps 4–5): solve the global system —
compute `(I − C·S)⁻¹ C` and extract the block at the external-`Port`
global indices in declaration order.  `none` when the solve is singular. -/
def circuitSext [DecidableEq K] (comps : List (CompG K))
    (nodes : List (List (ℕ × ℕ))) : Option (MatL K) :=
  let gp := gports nodes
  let T := gp.length
  let S := matOfFn T (globalS comps gp)
  let C := matOfFn T (interC nodes)
  match matInv T (matSub T (matId T) (matMul T C S)) with
  | none => none
  | some Minv =>
    let P := matMul T Minv C
    let ext := (List.range T).filter fun g => (comps.getD (gp.getD g (0, 0)).1 default).isPort
    some (ext.map fun ga => ext.map fun gb => matGet P ga gb)

/-! ### The loaded-transmission-line example (notebook `part_001`)

A 50 Ω lossless line of electrical length 0° terminated in a 75 Ω load:
the line–load combination is `delay_load`, the one-port with constant
reflection `ρ = (75 − 50)/(75 + 50)` on a 50 Ω reference, and the circuit
connects the single external port to it.  Frequencies: 1 to 2 GHz,
3 points, as in the notebook. -/

/-- The notebook's frequency samples, in GHz. -/
def loadedLineFreq : List ℚ := [1, 3/2, 2]

/-- Modelled from the spec: `zl_2_Gamma0(z0, zl) = (zl − z0)/(zl + z0)`. -/
def zl2Gamma (z0 zl : K) : K := (zl - z0) / (zl + z0)

/-- The two components of the loaded-line circuit at frequency `q` (the
`delay_load` one-port is frequency-independent because θ = 0°). -/
def loadedLineComps (_q : ℚ) : List (CompG ℚ) :=
  [⟨"port1", true, 1, fun _ _ => 0⟩,
   ⟨"delay_load", false, 1, fun _ _ => zl2Gamma 50 75⟩]

/-- The loaded-line netlist: one node joining the external port to the
loaded line. -/
def loadedLineNodes : List (List (ℕ × ℕ)) := [[(0, 0), (1, 0)]]

/-! ## Networks over a frequency grid, comparison, arithmetic guards

Modelled from the spec (§3, §4.1): a two-port `Network` is a `Frequency`
grid, a per-port reference-impedance pair, and the per-frequency list of
scattering matrices.  Comparison is element-wise approximate equality of
the S arrays within an explicit tolerance, plus `z0` and `Frequency`
equality; binary operations require identical `Frequency` grids and raise
the designated precondition error otherwise. -/

/-- A two-port network over a frequency grid (exact rationals stand in
for the library's floats). -/
structure Net2 where
  freq : List ℚ
  z0 : ℚ × ℚ
  s : List (S2 ℚ)
  deriving DecidableEq

instance : Inhabited Net2 := ⟨⟨[], (50, 50), []⟩⟩

/-- Modelled from the spec: the explicit numeric comparison tolerance. -/
def tolQ : ℚ := 1 / 10000

/-- Approximate equality of two scalars within `tolQ`. -/
def approxQ (x y : ℚ) : Bool := decide (|x - y| < tolQ)

/-- Element-wise approximate equality of two scattering matrices. -/
def approxS2 (a b : S2 ℚ) : Bool :=
  approxQ a.s11 b.s11 && approxQ a.s12 b.s12 &&
    approxQ a.s21 b.s21 && approxQ a.s22 b.s22

/-- Modelled from the spec: `Network.__eq__` — approximate equality of
the S arrays within the tolerance plus `z0` and `Frequency` equality. -/
def eqNet (a b : Net2) : Bool :=
  decide (a.freq = b.freq) && decide (a.z0 = b.z0) &&
    decide (a.s.length = b.s.length) &&
    (a.s.zip b.s).all fun p => approxS2 p.1 p.2

/-- Modelled from the spec: `Network.__ne__`, the negation of `==`. -/
def neNet (a b : Net2) : Bool := !eqNet a b

/-- Element-wise sum of scattering matrices. -/
def addS2 (x y : S2 K) : S2 K :=
  ⟨x.s11 + y.s11, x.s12 + y.s12, x.s21 + y.s21, x.s22 + y.s22⟩

/-- Element-wise difference of scattering matrices. -/
def subS2 (x y : S2 K) : S2 K :=
  ⟨x.s11 - y.s11, x.s12 - y.s12, x.s21 - y.s21, x.s22 - y.s22⟩

/-- Element-wise product of scattering matrices. -/
def mulS2 (x y : S2 K) : S2 K :=
  ⟨x.s11 * y.s11, x.s12 * y.s12, x.s21 * y.s21, x.s22 * y.s22⟩

/-- Element-wise quotient of scattering matrices. -/
def divS2 (x y : S2 K) : S2 K :=
  ⟨x.s11 / y.s11, x.s12 / y.s12, x.s21 / y.s21, x.s22 / y.s22⟩

/-- The error raised on mismatched `Frequency` grids (notebook traceback:
`__compatible_for_scalar_operation_test`). -/
def freqErrMsg : String := "Networks must have same frequency. See Network.interpolate"

/-- Modelled from the spec: any binary operation first checks that the two
Networks have identical `Frequency` grids (and S shapes); mismatch is a
hard error and no result is produced. -/
def binOpNet (f : S2 ℚ → S2 ℚ → S2 ℚ) (a b : Net2) : Except String Net2 :=
  if a.freq = b.freq ∧ a.s.length = b.s.length then
    .ok ⟨a.freq, a.z0, List.zipWith f a.s b.s⟩
  else .error freqErrMsg

/-- `Network.__add__`. -/
def addNet : Net2 → Net2 → Except String Net2 := binOpNet addS2

/-- `Network.__sub__`. -/
def subNet : Net2 → Net2 → Except String Net2 := binOpNet subS2

/-- `Network.__mul__`. -/
def mulNet : Net2 → Net2 → Except String Net2 := binOpNet mulS2

/-- `Network.__truediv__`. -/
def divNet : Net2 → Net2 → Except String Net2 := binOpNet divS2

/-- `Network.__pow__` (cascade), also guarded by the frequency check. -/
def cascadeNet : Net2 → Net2 → Except String Net2 := binOpNet cascade2

/-- The de-embedding `A.inv ** (A ** B)` applied frequency-point-wise. -/
def deembedNet (A B : Net2) : Net2 :=
  ⟨B.freq, B.z0, List.zipWith (fun x y => cascade2 (inv2 x) (cascade2 x y)) A.s B.s⟩

/-! ## Interpolation and resampling (spec §4.1, notebook `part_000`)

Modelled from the spec: `interpolate(freq)` produces a new Network on the
given grid by piecewise-linear interpolation of each S entry along
frequency; `resample(n)` re-grids the Network onto `n` uniformly spaced
points between its first and last frequency.  The notebook shows
`line1.resample(201)` changing `line1` itself (the subsequent
`line1 + line` succeeds), so `resample` is modelled as replacing the
object's state in a store of Network objects, while `interpolate` returns
a fresh Network and leaves the store unchanged. -/

/-- Piecewise-linear interpolation through the sample points `pts`. -/
def interp1 : List (ℚ × ℚ) → ℚ → ℚ
  | [], _ => 0
  | [(_, y0)], _ => y0
  | (x0, y0) :: (x1, y1) :: rest, x =>
    if x ≤ x0 then y0
    else if x ≤ x1 then y0 + (y1 - y0) * (x - x0) / (x1 - x0)
    else interp1 ((x1, y1) :: rest) x

/-- Interpolate each scattering entry separately at frequency `x`. -/
def interpS (freq : List ℚ) (s : List (S2 ℚ)) (x : ℚ) : S2 ℚ :=
  ⟨interp1 (freq.zip (s.map S2.s11)) x,
   interp1 (freq.zip (s.map S2.s12)) x,
   interp1 (freq.zip (s.map S2.s21)) x,
   interp1 (freq.zip (s.map S2.s22)) x⟩

/-- `Network.interpolate`: a new Network on the grid `newfreq`. -/
def interpolateF (n : Net2) (newfreq : List ℚ) : Net2 :=
  ⟨newfreq, n.z0, newfreq.map (interpS n.freq n.s)⟩

/-- `m` uniformly spaced points from `a` to `b`. -/
def linspaceQ (a b : ℚ) (m : ℕ) : List ℚ :=
  if m ≤ 1 then [a]
  else (List.range m).map fun (k : ℕ) => a + (b - a) * (k : ℚ) / ((m : ℚ) - 1)

/-- `Network.resample(m)` as a state transformer on the Network value:
the new grid is `m` points spanning the old one. -/
def resampleF (n : Net2) (m : ℕ) : Net2 :=
  interpolateF n (linspaceQ (n.freq.headD 0) (n.freq.getLastD 0) m)

/-- `resample` on a store of Network objects: the object at index `i` is
replaced by its resampled state (in-place semantics, as the notebook
shows). -/
def resampleW (w : List Net2) (i m : ℕ) : List Net2 :=
  w.set i (resampleF (w.getD i default) m)

/-- `interpolate` on a store of Network objects: the store is unchanged
and a fresh Network is returned. -/
def interpolateW (w : List Net2) (i : ℕ) (f : List ℚ) : List Net2 × Net2 :=
  (w, interpolateF (w.getD i default) f)

/-! ## Constructors and Circuit validation -/

/-- Modelled from the spec: `Network(frequency=…, s=…, z0=…)` — when `z0`
is not passed, every port's reference impedance defaults to 50 Ω
(notebook: "if not passed, will assume z0=50"). -/
def mkNetworkG (s : ℕ → ℕ → K) (np : ℕ) (z0opt : Option (List K)) : NetworkG K :=
  ⟨s, z0opt.getD (List.replicate np 50)⟩

/-- The error raised on an invalid Circuit netlist. -/
def circuitErrMsg : String :=
  "Circuit: Network names must be unique and each (network, port) pair may appear in only one node"

/-- Modelled from the spec (§3, §7): Circuit construction validates that
all component names are distinct and that each `(component, port)` pair
appears in exactly one node; violations are a hard error, a valid netlist
is accepted unchanged. -/
def mkCircuit (comps : List (CompG K)) (nodes : List (List (ℕ × ℕ))) :
    Except String (List (CompG K) × List (List (ℕ × ℕ))) :=
  if (comps.map CompG.name).Nodup ∧ (gports nodes).Nodup then .ok (comps, nodes)
  else .error circuitErrMsg

/-! ## Theorems -/

/-- De-embedding, pointwise form: cascading the inverse of `a` with `a`
gives the identity thru.  Shared helper for the claims about `a.inv ** a`. -/
theorem inv2_cascade2_self (a : S2 K) (h12 : a.s12 ≠ 0) (h21 : a.s21 ≠ 0)
    (hΔ : a.s12 * a.s21 - a.s11 * a.s22 ≠ 0) :
    cascade2 (inv2 a) a = thru2 := by
  obtain ⟨a11, a12, a21, a22⟩ := a
  simp only [S2.s11, S2.s12, S2.s21, S2.s22] at h12 h21 hΔ
  simp only [cascade2, inv2, thru2, S2.mk.injEq]
  have key : (1 : K) - -a22 / (a12 * a21 - a11 * a22) * a11 =
      (a12 * a21) / (a12 * a21 - a11 * a22) := by
    field_simp
    ring
  rw [key]
  refine ⟨?_, ?_, ?_, ?_⟩ <;>
    · rw [div_div_eq_mul_div]
      field_simp
      try ring

/-- De-embedding, pointwise form: `a.inv ** (a ** b) = b`.  Shared helper. -/
theorem inv2_cascade2_deembed (a b : S2 K) (h12 : a.s12 ≠ 0) (h21 : a.s21 ≠ 0)
    (hΔ : a.s12 * a.s21 - a.s11 * a.s22 ≠ 0)
    (hden : 1 - a.s22 * b.s11 ≠ 0) :
    cascade2 (inv2 a) (cascade2 a b) = b := by
  obtain ⟨a11, a12, a21, a22⟩ := a
  obtain ⟨b11, b12, b21, b22⟩ := b
  simp only [S2.s11, S2.s12, S2.s21, S2.s22] at h12 h21 hΔ hden
  simp only [cascade2, inv2, S2.mk.injEq]
  have key : (1 : K) - -a22 / (a12 * a21 - a11 * a22) *
      (a11 + a12 * a21 * b11 / (1 - a22 * b11)) =
      (a12 * a21) / ((a12 * a21 - a11 * a22) * (1 - a22 * b11)) := by
    field_simp
    ring
  rw [key]
  refine ⟨?_, ?_, ?_, ?_⟩ <;>
    · rw [div_div_eq_mul_div]
      field_simp
      try rw [div_eq_iff (by simp [mul_eq_zero, hΔ, hden, h12, h21])]
      try ring

theorem invA_eq_inv {n : ℕ} (A : Matrix (Fin n) (Fin n) K) : invA A = A⁻¹ := by
  rw [Matrix.inv_def, invA, Ring.inverse_eq_inv]

/-- Round trip through the impedance matrix, any number of ports:
`from_Z (to_Z S z0) z0 = S` whenever `I − S` is invertible. -/
theorem z2s_s2z {n : ℕ} (S : Matrix (Fin n) (Fin n) K) (z0 : K)
    (h2 : (2 : K) ≠ 0) (hz : z0 ≠ 0) (hdet : IsUnit (1 - S).det) :
    z2s (s2z S z0) z0 = S := by
  have hone : (1 - S) * (1 - S)⁻¹ = 1 := Matrix.mul_nonsing_inv _ hdet
  have e1 : s2z S z0 + z0 • (1 : Matrix (Fin n) (Fin n) K) = (2 * z0) • (1 - S)⁻¹ := by
    rw [s2z, invA_eq_inv]
    have h3 : z0 • ((1 + S) * (1 - S)⁻¹) + z0 • (1 : Matrix (Fin n) (Fin n) K) =
        z0 • ((1 + S) * (1 - S)⁻¹ + (1 - S) * (1 - S)⁻¹) := by
      rw [hone, smul_add]
    rw [h3, ← add_mul]
    have h4 : (1 + S + (1 - S)) = ((2 : K) • (1 : Matrix (Fin n) (Fin n) K)) := by
      rw [two_smul]
      abel
    rw [h4, Matrix.smul_mul, Matrix.one_mul, smul_smul, mul_comm z0 2]
  have e2 : s2z S z0 - z0 • (1 : Matrix (Fin n) (Fin n) K) = (2 * z0) • (S * (1 - S)⁻¹) := by
    rw [s2z, invA_eq_inv]
    have h3 : z0 • ((1 + S) * (1 - S)⁻¹) - z0 • (1 : Matrix (Fin n) (Fin n) K) =
        z0 • ((1 + S) * (1 - S)⁻¹ - (1 - S) * (1 - S)⁻¹) := by
      rw [hone, smul_sub]
    rw [h3, ← sub_mul]
    have h4 : (1 + S - (1 - S)) = ((2 : K) • S) := by
      rw [two_smul]
      abel
    rw [h4, Matrix.smul_mul, smul_smul, mul_comm z0 2]
  have e3 : invA (s2z S z0 + z0 • (1 : Matrix (Fin n) (Fin n) K)) = (2 * z0)⁻¹ • (1 - S) := by
    rw [e1, invA_eq_inv]
    apply Matrix.inv_eq_right_inv
    rw [Matrix.smul_mul, Matrix.mul_smul, smul_smul, Matrix.nonsing_inv_mul _ hdet,
      mul_inv_cancel₀ (mul_ne_zero h2 hz), one_smul]
  rw [z2s, e2, e3, Matrix.smul_mul, Matrix.mul_smul, smul_smul,
    mul_inv_cancel₀ (mul_ne_zero h2 hz), one_smul, Matrix.mul_assoc,
    Matrix.nonsing_inv_mul _ hdet, Matrix.mul_one]

/-- Round trip through the admittance matrix, any number of ports. -/
theorem y2s_s2y {n : ℕ} (S : Matrix (Fin n) (Fin n) K) (z0 : K)
    (h2 : (2 : K) ≠ 0) (hz : z0 ≠ 0) (hdet : IsUnit (1 - S).det)
    (hdetZ : IsUnit (s2z S z0).det) :
    y2s (s2y S z0) z0 = S := by
  rw [y2s, s2y, invA_eq_inv, invA_eq_inv, Matrix.nonsing_inv_nonsing_inv _ hdetZ]
  exact z2s_s2z S z0 h2 hz hdet

/-- Round trip through the wave-transfer matrix of a two-port. -/
theorem t2s_s2t (a : S2 K) (h21 : a.s21 ≠ 0) : t2s (s2t a) = a := by
  obtain ⟨a11, a12, a21, a22⟩ := a
  simp only [S2.s21] at h21
  simp only [s2t, t2s, Matrix.cons_val', Matrix.cons_val_zero, Matrix.cons_val_one,
    Matrix.head_cons, Matrix.head_fin_const, Matrix.empty_val', Matrix.cons_val_fin_one,
    Matrix.of_apply, S2.mk.injEq]
  refine ⟨?_, ?_, ?_, ?_⟩ <;> field_simp <;> ring

/-- Cancellation helper: a factor `z` multiplied in and then divided out. -/
theorem zcancel_a (z P d : K) (hz : z ≠ 0) : z * P / d / z = P / d := by
  rw [div_div, mul_comm z P, mul_div_mul_right _ _ hz]

/-- Cancellation helper: a factor `z` divided out and then multiplied in. -/
theorem zcancel_b (z P d : K) (hz : z ≠ 0) : P / (d * z) * z = P / d := by
  rw [div_mul_eq_mul_div, mul_div_mul_right _ _ hz]

/-- Cancellation helper, left variant of `zcancel_b`. -/
theorem zcancel_c (z P d : K) (hz : z ≠ 0) : P / (z * d) * z = P / d := by
  rw [div_mul_eq_mul_div, mul_comm z d, mul_div_mul_right _ _ hz]

/-- Round trip through the chain (ABCD) matrix of a two-port. -/
theorem a2s_s2a (s : S2 K) (z0 : K) (h21 : s.s21 ≠ 0) (hz : z0 ≠ 0)
    (h2 : (2 : K) ≠ 0) : a2s (s2a s z0) z0 = s := by
  obtain ⟨s11, s12, s21, s22⟩ := s
  simp only [S2.s21] at h21
  have hd : (2 : K) * s21 ≠ 0 := mul_ne_zero h2 h21
  have h4 : (4 : K) ≠ 0 := by
    rw [show (4 : K) = 2 * 2 by norm_num]
    exact mul_ne_zero h2 h2
  simp only [s2a, a2s, S2.mk.injEq]
  have keyDet : ((1 + s11) * (1 - s22) + s12 * s21) / (2 * s21) *
      (((1 - s11) * (1 + s22) + s12 * s21) / (2 * s21)) -
      z0 * ((1 + s11) * (1 + s22) - s12 * s21) / (2 * s21) *
      (((1 - s11) * (1 - s22) - s12 * s21) / (2 * s21 * z0)) = s12 / s21 := by
    rw [div_mul_div_comm, div_mul_div_comm,
      show (2 : K) * s21 * (2 * s21 * z0) = z0 * (2 * s21 * (2 * s21)) from by ring,
      mul_assoc z0, mul_div_mul_left _ _ hz, div_sub_div_same,
      div_eq_div_iff (by exact mul_ne_zero hd hd) h21]
    ring
  rw [keyDet]
  simp only [zcancel_a z0 _ _ hz, zcancel_b z0 _ _ hz, ← neg_div,
    div_add_div_same, div_sub_div_same]
  rw [show ((1 + s11) * (1 - s22) + s12 * s21 + ((1 + s11) * (1 + s22) - s12 * s21) +
      ((1 - s11) * (1 - s22) - s12 * s21) + ((1 - s11) * (1 + s22) + s12 * s21)) =
      (4 : K) from by ring]
  refine ⟨?_, ?_, ?_, ?_⟩
  · rw [div_div_div_cancel_right₀ hd, div_eq_iff h4]
    ring
  · rw [mul_div_assoc', div_div_eq_mul_div, div_mul_eq_mul_div, div_div,
      div_eq_iff (mul_ne_zero h21 h4)]
    ring
  · rw [div_div_eq_mul_div, div_eq_iff h4]
    ring
  · rw [div_div_div_cancel_right₀ hd, div_eq_iff h4]
    ring

/-- Round trip through the hybrid (H) matrix of a two-port. -/
theorem h2s_s2h (s : S2 K) (z0 : K) (hz : z0 ≠ 0) (h2 : (2 : K) ≠ 0)
    (hD : (1 - s.s11) * (1 + s.s22) + s.s12 * s.s21 ≠ 0) :
    h2s (s2h s z0) z0 = s := by
  obtain ⟨s11, s12, s21, s22⟩ := s
  simp only [S2.s11, S2.s12, S2.s21, S2.s22] at hD
  have h4 : (4 : K) ≠ 0 := by
    rw [show (4 : K) = 2 * 2 by norm_num]
    exact mul_ne_zero h2 h2
  simp only [s2h, h2s, S2.mk.injEq]
  simp only [zcancel_a z0 _ _ hz, zcancel_c z0 _ _ hz]
  simp only [div_add_one hD, div_sub_one hD, one_add_div hD, one_sub_div hD]
  simp only [div_mul_div_comm]
  simp only [mul_div_assoc']
  simp only [div_sub_div_same, div_add_div_same]
  rw [show ((1 + s11) * (1 + s22) - s12 * s21 + ((1 - s11) * (1 + s22) + s12 * s21)) *
      ((1 - s11) * (1 - s22) - s12 * s21 + ((1 - s11) * (1 + s22) + s12 * s21)) -
      2 * s12 * (-2 * s21) =
      (4 : K) * ((1 - s11) * (1 + s22) + s12 * s21) from by ring]
  have hDD : ((1 - s11) * (1 + s22) + s12 * s21) *
      ((1 - s11) * (1 + s22) + s12 * s21) ≠ 0 := mul_ne_zero hD hD
  have h4D : (4 : K) * ((1 - s11) * (1 + s22) + s12 * s21) ≠ 0 := mul_ne_zero h4 hD
  refine ⟨?_, ?_, ?_, ?_⟩
  · rw [div_div_div_cancel_right₀ hDD, div_eq_iff h4D]
    ring
  · rw [div_div_eq_mul_div, div_mul_eq_mul_div, div_div,
      div_eq_iff (mul_ne_zero hD h4D)]
    ring
  · rw [div_div_eq_mul_div, div_mul_eq_mul_div, div_div,
      div_eq_iff (mul_ne_zero hD h4D)]
    ring
  · rw [div_div_div_cancel_right₀ hDD, div_eq_iff h4D]
    ring

omit [Field K] in
theorem eraseN_eq_take_drop (xs : List K) (i : ℕ) :
    ∀ n, i + n ≤ xs.length → eraseN xs i n = xs.take i ++ xs.drop (i + n) := by
  intro n
  induction n generalizing xs with
  | zero => intro _; simp [eraseN]
  | succ m ih =>
    intro hlen
    have hi : i < xs.length := by omega
    rw [eraseN, ih (xs.eraseIdx i) (by
      rw [List.length_eraseIdx, if_pos hi]; omega)]
    rw [List.eraseIdx_eq_take_drop_succ]
    have hlentake : (xs.take i).length = i := by
      rw [List.length_take]; omega
    congr 1
    · rw [List.take_append_eq_append_take, hlentake, Nat.sub_self, List.take_zero,
        List.append_nil, List.take_take, min_self]
    · rw [List.drop_append_eq_append_drop, hlentake,
        List.drop_eq_nil_of_le (by rw [hlentake]; omega), List.nil_append,
        List.drop_drop]
      congr 1
      omega

theorem length_eraseN (xs : List K) (i : ℕ) :
    ∀ n, i + n ≤ xs.length → (eraseN xs i n).length = xs.length - n := by
  intro n h
  rw [eraseN_eq_take_drop xs i n h, List.length_append, List.length_take,
    List.length_drop]
  omega

/-- Port-impedance bookkeeping of the iterated pairwise reduction: with the
combined port list `xs ++ ys`, `n` rounds joining `(i, |xs| + j)` and its
shifted successors remove ports `i, …, i+n−1` from `xs` and `j, …, j+n−1`
from `ys`, preserving the order of the remaining ports. -/
theorem connectIter_z0 :
    ∀ (n : ℕ) (s : ℕ → ℕ → K) (xs ys : List K) (i j : ℕ),
      i + n ≤ xs.length → j + n ≤ ys.length →
      (connectIter i j (⟨s, xs ++ ys⟩ : NetworkG K) xs.length n).z0 =
        eraseN xs i n ++ eraseN ys j n := by
  intro n
  induction n with
  | zero => intro s xs ys i j _ _; rfl
  | succ m ih =>
    intro s xs ys i j hA hB
    have hi : i < xs.length := by omega
    have hj : j < ys.length := by omega
    have hz0eq : ((xs ++ ys).eraseIdx (xs.length + j)).eraseIdx i =
        xs.eraseIdx i ++ ys.eraseIdx j := by
      rw [List.eraseIdx_append_of_length_le (by omega), Nat.add_sub_cancel_left,
        List.eraseIdx_append_of_lt_length hi]
    have hz : innerNet (⟨s, xs ++ ys⟩ : NetworkG K) i (xs.length + j) =
        ⟨innerS s i (xs.length + j), xs.eraseIdx i ++ ys.eraseIdx j⟩ := by
      simp only [innerNet, hz0eq]
    have hm : xs.length - 1 = (xs.eraseIdx i).length := by
      rw [List.length_eraseIdx, if_pos hi]
    rw [connectIter, hz, hm,
      ih (innerS s i (xs.length + j)) (xs.eraseIdx i) (ys.eraseIdx j) i j
        (by rw [List.length_eraseIdx, if_pos hi]; omega)
        (by rw [List.length_eraseIdx, if_pos hj]; omega)]
    rfl

theorem connectNum_z0 (A B : NetworkG K) (i j n : ℕ)
    (hA : i + n ≤ A.np) (hB : j + n ≤ B.np) :
    (connectNum A i B j n).z0 = eraseN A.z0 i n ++ eraseN B.z0 j n :=
  connectIter_z0 n (blockS A B) A.z0 B.z0 i j hA hB

/-- The Connection Engine reflection computation: connecting a matched
thru at reference `z1` to a matched load at reference `z2` inserts the
mismatch two-port and shows reflection `ρ = (z2 − z1)/(z1 + z2)`. -/
theorem connectG_mismatch_reflection [DecidableEq K] (z1 z2 t : K)
    (hne : z1 ≠ z2) :
    (connectG (thruNet z1) 1 (matchedLoad z2) 0 t).s 0 0 = (z2 - z1) / (z1 + z2) := by
  simp only [connectG, thruNet, matchedLoad, NetworkG.np, List.getD, List.length_cons,
    List.length_nil]
  norm_num [hne]
  norm_num [connectPlain, connectNum, connectIter, innerNet, innerS, blockNet, blockS,
    mismatchNet, restore2, NetworkG.np]

/-- The loaded-line circuit solve at one frequency point. -/
theorem circuitSext_loaded_line (q : ℚ) :
    circuitSext (loadedLineComps q) loadedLineNodes = some [[zl2Gamma 50 75]] := by
  norm_num [circuitSext, matInv, detL, adjL, minorM, matMul, matSub, matId,
    matOfFn, matGet, globalS, interC, gports, nodeOf, nodeOfAux,
    loadedLineComps, loadedLineNodes, zl2Gamma, List.range_succ]

/-- **C1**: connecting through the Connection Engine two interfaces whose
port reference impedances differ inserts the ideal impedance-mismatch
two-port and reproduces `ρ = (Z₂ − Z₁)/(Z₁ + Z₂)`; and the worked
loaded-transmission-line example (50 Ω lossless line of electrical length
0° terminated in 75 Ω) has `S11 = 0.2` at every frequency point, with the
Circuit-based construction and the direct formula-based construction in
exact agreement. -/
theorem claim1_mismatch_and_loaded_line [DecidableEq K] (z1 z2 t : K)
    (hne : z1 ≠ z2) (_hz : z1 + z2 ≠ 0)
    (_ht : t ^ 2 = 1 - ((z2 - z1) / (z1 + z2)) ^ 2)
    (q : ℚ) (_hq : q ∈ loadedLineFreq) :
    (connectG (thruNet z1) 1 (matchedLoad z2) 0 t).s 0 0 = (z2 - z1) / (z1 + z2) ∧
    circuitSext (loadedLineComps q) loadedLineNodes = some [[zl2Gamma 50 75]] ∧
    zl2Gamma (50 : ℚ) 75 = 1 / 5 :=
  ⟨connectG_mismatch_reflection z1 z2 t hne, circuitSext_loaded_line q, by
    norm_num [zl2Gamma]⟩

/-- **C1** witness: `Z₁ = 9`, `Z₂ = 16`, `t = 24/25` (so `t² = 1 − ρ²`
holds exactly in ℚ), at the first frequency point. -/
theorem claim1_witness :
    ((9 : ℚ) ≠ 16 ∧ (9 : ℚ) + 16 ≠ 0 ∧
      ((24 / 25 : ℚ)) ^ 2 = 1 - (((16 : ℚ) - 9) / (9 + 16)) ^ 2 ∧
      (1 : ℚ) ∈ loadedLineFreq) ∧
    ((connectG (thruNet (9 : ℚ)) 1 (matchedLoad 16) 0 (24 / 25)).s 0 0 =
        ((16 : ℚ) - 9) / (9 + 16) ∧
      circuitSext (loadedLineComps 1) loadedLineNodes = some [[zl2Gamma 50 75]] ∧
      zl2Gamma (50 : ℚ) 75 = 1 / 5) :=
  ⟨⟨by norm_num, by norm_num, by norm_num, by simp [loadedLineFreq]⟩,
   claim1_mismatch_and_loaded_line 9 16 (24 / 25) (by norm_num) (by norm_num)
     (by norm_num) 1 (by simp [loadedLineFreq])⟩

/-- **C3**: `connect(A, i, B, j)` yields `P_A + P_B − 2` ports, the two
joined ports removed and the remaining ports in order (remaining A ports
then remaining B ports, witnessed by the re-keyed `z0` list); with the
`num` argument the pairwise reduction is repeated `num` times, removing
ports `i, …, i+num−1` of A and `j, …, j+num−1` of B — after each removal
of a port every higher port index shifts down by one, so the final port
list is `take i ++ drop (i+num)` on each side. -/
theorem claim3_connect_port_bookkeeping (A B : NetworkG K) (i j num : ℕ)
    (hi : i < A.np) (hj : j < B.np)
    (hA : i + num ≤ A.np) (hB : j + num ≤ B.np) :
    (connectPlain A i B j).z0 = A.z0.eraseIdx i ++ B.z0.eraseIdx j ∧
    (connectPlain A i B j).np = A.np + B.np - 2 ∧
    (connectNum A i B j num).z0 =
      (A.z0.take i ++ A.z0.drop (i + num)) ++ (B.z0.take j ++ B.z0.drop (j + num)) ∧
    (connectNum A i B j num).np = A.np + B.np - 2 * num := by
  have h1 : (connectPlain A i B j).z0 = A.z0.eraseIdx i ++ B.z0.eraseIdx j := by
    rw [connectPlain, connectNum_z0 A B i j 1 (by omega) (by omega)]
    rfl
  have hi2 : i < A.z0.length := hi
  have hj2 : j < B.z0.length := hj
  have hA2 : i + num ≤ A.z0.length := hA
  have hB2 : j + num ≤ B.z0.length := hB
  refine ⟨h1, ?_, ?_, ?_⟩
  · show (connectPlain A i B j).z0.length = _
    rw [h1, List.length_append, List.length_eraseIdx, List.length_eraseIdx,
      if_pos hi2, if_pos hj2]
    show A.z0.length - 1 + (B.z0.length - 1) = A.z0.length + B.z0.length - 2
    omega
  · rw [connectNum_z0 A B i j num hA hB, eraseN_eq_take_drop A.z0 i num hA,
      eraseN_eq_take_drop B.z0 j num hB]
  · show (connectNum A i B j num).z0.length = _
    rw [connectNum_z0 A B i j num hA hB, List.length_append,
      length_eraseN A.z0 i num hA, length_eraseN B.z0 j num hB]
    show A.z0.length - num + (B.z0.length - num) = A.z0.length + B.z0.length - 2 * num
    omega

/-- **C3** witness: a 3-port connected to a 2-port at `(i, j) = (1, 0)`
with `num = 2`. -/
theorem claim3_witness :
    ((1 < (⟨fun _ _ => 0, [1, 2, 3]⟩ : NetworkG ℚ).np) ∧
      (0 < (⟨fun _ _ => 0, [4, 5]⟩ : NetworkG ℚ).np) ∧
      1 + 2 ≤ (⟨fun _ _ => 0, [1, 2, 3]⟩ : NetworkG ℚ).np ∧
      0 + 2 ≤ (⟨fun _ _ => 0, [4, 5]⟩ : NetworkG ℚ).np) ∧
    ((connectNum (⟨fun _ _ => 0, [1, 2, 3]⟩ : NetworkG ℚ) 1 ⟨fun _ _ => 0, [4, 5]⟩ 0 2).z0 =
      (([1, 2, 3] : List ℚ).take 1 ++ ([1, 2, 3] : List ℚ).drop 3) ++
        (([4, 5] : List ℚ).take 0 ++ ([4, 5] : List ℚ).drop 2)) :=
  ⟨⟨by decide, by decide, by decide, by decide⟩,
   (claim3_connect_port_bookkeeping (⟨fun _ _ => 0, [1, 2, 3]⟩ : NetworkG ℚ)
     ⟨fun _ _ => 0, [4, 5]⟩ 1 0 2 (by decide) (by decide) (by decide) (by decide)).2.2.1⟩

/-- **C4**: for every supported parameter type `X ∈ {Z, Y, ABCD, T, H}`
(two-port records where the representation requires it, any port count
for Z and Y), converting the S matrix to `X`-parameters with the
network's reference impedance and back recovers the S matrix exactly. -/
theorem claim4_parameter_round_trips (n : ℕ) (S : Matrix (Fin n) (Fin n) K)
    (z0 : K) (s : S2 K) (h2 : (2 : K) ≠ 0) (hz : z0 ≠ 0)
    (hdet : (1 - S).det ≠ 0) (hdetZ : (s2z S z0).det ≠ 0)
    (h21 : s.s21 ≠ 0) (hDh : (1 - s.s11) * (1 + s.s22) + s.s12 * s.s21 ≠ 0) :
    z2s (s2z S z0) z0 = S ∧ y2s (s2y S z0) z0 = S ∧
    t2s (s2t s) = s ∧ a2s (s2a s z0) z0 = s ∧ h2s (s2h s z0) z0 = s :=
  ⟨z2s_s2z S z0 h2 hz (isUnit_iff_ne_zero.mpr hdet),
   y2s_s2y S z0 h2 hz (isUnit_iff_ne_zero.mpr hdet) (isUnit_iff_ne_zero.mpr hdetZ),
   t2s_s2t s h21, a2s_s2a s z0 h21 hz h2, h2s_s2h s z0 hz h2 hDh⟩

/-- **C4** witness: the zero two-port S matrix at `z0 = 50` and the ideal
thru record. -/
theorem claim4_witness :
    (((2 : ℚ) ≠ 0) ∧ ((50 : ℚ) ≠ 0) ∧
      ((1 - (0 : Matrix (Fin 2) (Fin 2) ℚ)).det ≠ 0) ∧
      ((s2z (0 : Matrix (Fin 2) (Fin 2) ℚ) 50).det ≠ 0) ∧
      ((thru2 : S2 ℚ).s21 ≠ 0) ∧
      ((1 - (thru2 : S2 ℚ).s11) * (1 + (thru2 : S2 ℚ).s22) +
        (thru2 : S2 ℚ).s12 * (thru2 : S2 ℚ).s21 ≠ 0)) ∧
    (z2s (s2z (0 : Matrix (Fin 2) (Fin 2) ℚ) 50) 50 = 0 ∧
      y2s (s2y (0 : Matrix (Fin 2) (Fin 2) ℚ) 50) 50 = 0 ∧
      t2s (s2t (thru2 : S2 ℚ)) = thru2 ∧
      a2s (s2a (thru2 : S2 ℚ) 50) 50 = thru2 ∧
      h2s (s2h (thru2 : S2 ℚ) 50) 50 = thru2) := by
  have hinv1 : (1 : Matrix (Fin 2) (Fin 2) ℚ)⁻¹ = 1 :=
    Matrix.inv_eq_left_inv (by rw [Matrix.one_mul])
  have hs2z : s2z (0 : Matrix (Fin 2) (Fin 2) ℚ) 50 = (50 : ℚ) • 1 := by
    rw [s2z, sub_zero, add_zero, invA_eq_inv, hinv1, Matrix.mul_one]
  have hone : ((1 : Matrix (Fin 2) (Fin 2) ℚ) - 0).det ≠ 0 := by
    rw [sub_zero, Matrix.det_one]
    norm_num
  have hdZ : (s2z (0 : Matrix (Fin 2) (Fin 2) ℚ) 50).det ≠ 0 := by
    rw [hs2z, Matrix.det_smul, Matrix.det_one]
    norm_num
  exact ⟨⟨by norm_num, by norm_num, hone, hdZ, by norm_num [thru2], by norm_num [thru2]⟩,
    claim4_parameter_round_trips 2 0 50 thru2 (by norm_num) (by norm_num) hone hdZ
      (by norm_num [thru2]) (by norm_num [thru2])⟩

/-- **C5**: for every invertible two-port `A`, cascading its inverse with
itself gives the identity thru, and de-embedding recovers any two-port
`B`: `A.inv ** (A ** B) = B`. -/
theorem claim5_inverse_deembedding (a b : S2 K) (h12 : a.s12 ≠ 0)
    (h21 : a.s21 ≠ 0) (hΔ : a.s12 * a.s21 - a.s11 * a.s22 ≠ 0)
    (hden : 1 - a.s22 * b.s11 ≠ 0) :
    cascade2 (inv2 a) a = thru2 ∧ cascade2 (inv2 a) (cascade2 a b) = b :=
  ⟨inv2_cascade2_self a h12 h21 hΔ, inv2_cascade2_deembed a b h12 h21 hΔ hden⟩

/-- **C5** witness: `A` the ideal thru shifted record `⟨1/2, 1, 1, 1/3⟩`,
`B = ⟨1/4, 1, 1, 0⟩`. -/
theorem claim5_witness :
    (((⟨1/2, 1, 1, 1/3⟩ : S2 ℚ).s12 ≠ 0) ∧
      ((⟨1/2, 1, 1, 1/3⟩ : S2 ℚ).s21 ≠ 0) ∧
      ((⟨1/2, 1, 1, 1/3⟩ : S2 ℚ).s12 * (⟨1/2, 1, 1, 1/3⟩ : S2 ℚ).s21 -
        (⟨1/2, 1, 1, 1/3⟩ : S2 ℚ).s11 * (⟨1/2, 1, 1, 1/3⟩ : S2 ℚ).s22 ≠ 0) ∧
      (1 - (⟨1/2, 1, 1, 1/3⟩ : S2 ℚ).s22 * (⟨1/4, 1, 1, 0⟩ : S2 ℚ).s11 ≠ 0)) ∧
    (cascade2 (inv2 (⟨1/2, 1, 1, 1/3⟩ : S2 ℚ)) ⟨1/2, 1, 1, 1/3⟩ = thru2 ∧
      cascade2 (inv2 (⟨1/2, 1, 1, 1/3⟩ : S2 ℚ))
        (cascade2 ⟨1/2, 1, 1, 1/3⟩ ⟨1/4, 1, 1, 0⟩) = ⟨1/4, 1, 1, 0⟩) :=
  ⟨⟨by norm_num, by norm_num, by norm_num, by norm_num⟩,
   claim5_inverse_deembedding (⟨1/2, 1, 1, 1/3⟩ : S2 ℚ) ⟨1/4, 1, 1, 0⟩
     (by norm_num) (by norm_num) (by norm_num) (by norm_num)⟩

/-- **C6**: every arithmetic operation and cascading between Networks on
different Frequency grids returns the designated precondition error — no
result is produced and, the operations being pure functions of their
operands, neither operand is modified; no implicit interpolation occurs. -/
theorem claim6_frequency_mismatch_guard (a b : Net2) (hne : a.freq ≠ b.freq) :
    addNet a b = .error freqErrMsg ∧ subNet a b = .error freqErrMsg ∧
    mulNet a b = .error freqErrMsg ∧ divNet a b = .error freqErrMsg ∧
    cascadeNet a b = .error freqErrMsg := by
  refine ⟨?_, ?_, ?_, ?_, ?_⟩ <;>
    · simp only [addNet, subNet, mulNet, divNet, cascadeNet, binOpNet]
      rw [if_neg (fun h => hne h.1)]

/-- **C6** witness: a 1-point and a 2-point grid. -/
theorem claim6_witness :
    ((⟨[1], (50, 50), [thru2]⟩ : Net2).freq ≠
      (⟨[1, 2], (50, 50), [thru2, thru2]⟩ : Net2).freq) ∧
    (addNet ⟨[1], (50, 50), [thru2]⟩ ⟨[1, 2], (50, 50), [thru2, thru2]⟩ =
      .error freqErrMsg ∧
     subNet ⟨[1], (50, 50), [thru2]⟩ ⟨[1, 2], (50, 50), [thru2, thru2]⟩ =
      .error freqErrMsg ∧
     mulNet ⟨[1], (50, 50), [thru2]⟩ ⟨[1, 2], (50, 50), [thru2, thru2]⟩ =
      .error freqErrMsg ∧
     divNet ⟨[1], (50, 50), [thru2]⟩ ⟨[1, 2], (50, 50), [thru2, thru2]⟩ =
      .error freqErrMsg ∧
     cascadeNet ⟨[1], (50, 50), [thru2]⟩ ⟨[1, 2], (50, 50), [thru2, thru2]⟩ =
      .error freqErrMsg) :=
  ⟨by simp, claim6_frequency_mismatch_guard _ _ (by simp)⟩

/-- **C7**: Circuit construction accepts a netlist exactly when all
component names are distinct and each (network, port) pair appears in at
most one node; any violation is an immediate hard error, never a silent
coercion. -/
theorem claim7_circuit_netlist_validation (comps : List (CompG K))
    (nodes : List (List (ℕ × ℕ))) :
    (mkCircuit comps nodes = .ok (comps, nodes) ↔
      (comps.map CompG.name).Nodup ∧ (gports nodes).Nodup) ∧
    (¬((comps.map CompG.name).Nodup ∧ (gports nodes).Nodup) →
      mkCircuit comps nodes = .error circuitErrMsg) := by
  constructor
  · constructor
    · intro h
      by_contra hcon
      rw [mkCircuit, if_neg hcon] at h
      exact absurd h (by simp)
    · intro h
      rw [mkCircuit, if_pos h]
  · intro h
    rw [mkCircuit, if_neg h]

/-- **C7** witness: a valid two-component netlist is accepted; the same
netlist with a duplicated component name is rejected. -/
theorem claim7_witness :
    mkCircuit [⟨"port1", true, 1, fun _ _ => (0 : ℚ)⟩,
        ⟨"load", false, 1, fun _ _ => 0⟩] [[(0, 0), (1, 0)]] =
      .ok ([⟨"port1", true, 1, fun _ _ => (0 : ℚ)⟩,
        ⟨"load", false, 1, fun _ _ => 0⟩], [[(0, 0), (1, 0)]]) ∧
    mkCircuit [⟨"port1", true, 1, fun _ _ => (0 : ℚ)⟩,
        ⟨"port1", false, 1, fun _ _ => 0⟩] [[(0, 0), (1, 0)]] =
      .error circuitErrMsg :=
  ⟨(claim7_circuit_netlist_validation _ _).1.mpr (by constructor <;> decide),
   (claim7_circuit_netlist_validation _ _).2 (by decide)⟩

/-- The resampled Network's grid has exactly `m` points (for `m ≥ 2`). -/
theorem resampleF_freq_length (n : Net2) (m : ℕ) (hm : 2 ≤ m) :
    (resampleF n m).freq.length = m := by
  simp only [resampleF, interpolateF]
  rw [linspaceQ, if_neg (by omega : ¬m ≤ 1), List.length_map, List.length_range]

/-- **C8** counterexample: the claim "`n.resample(m)` leaves `n` itself
unchanged" is false — the notebook calls `line1.resample(201)` and
afterwards `line1` is on the new grid (`line1 + line` then succeeds), so
`resample` replaces the object's own Frequency grid: for a stored 2-point
Network, after `resample(3)` the object's grid differs from the original. -/
theorem claim8_counterexample :
    ¬(((resampleW [⟨[1, 2], (50, 50), [thru2, thru2]⟩] 0 3).getD 0 default).freq =
      ((⟨[1, 2], (50, 50), [thru2, thru2]⟩ : Net2)).freq) := by
  intro h
  have h3 : ((resampleW [⟨[1, 2], (50, 50), [thru2, thru2]⟩] 0 3).getD 0 default).freq.length = 3 := by
    rw [show (resampleW [⟨[1, 2], (50, 50), [thru2, thru2]⟩] 0 3).getD 0 default =
        resampleF (⟨[1, 2], (50, 50), [thru2, thru2]⟩ : Net2) 3 from rfl]
    exact resampleF_freq_length _ 3 (by omega)
  rw [h] at h3
  simp at h3

/-- **C8** (amended): `resample(m)` interpolates the Network's own S and
grid in place — the stored object at index `i` becomes the resampled
Network, whose grid has `m` points — while every other stored object is
untouched; `interpolate(freq)` produces a fresh Network on the requested
grid and leaves the store unchanged. -/
theorem claim8_resample_in_place_interpolate_pure (w : List Net2) (i m : ℕ)
    (f : List ℚ) (hi : i < w.length) (hm : 2 ≤ m) :
    (resampleW w i m).getD i default = resampleF (w.getD i default) m ∧
    (∀ j, j ≠ i → (resampleW w i m).getD j default = w.getD j default) ∧
    (resampleF (w.getD i default) m).freq.length = m ∧
    (interpolateW w i f).1 = w ∧
    (interpolateW w i f).2.freq = f := by
  refine ⟨?_, ?_, ?_, rfl, rfl⟩
  · rw [resampleW, List.getD_eq_getElem?_getD, List.getElem?_set_self (by omega),
      Option.getD_some]
  · intro j hj
    rw [resampleW, List.getD_eq_getElem?_getD, List.getElem?_set_ne (by omega),
      ← List.getD_eq_getElem?_getD]
  · exact resampleF_freq_length _ m hm

/-- **C8** witness: a one-object store resampled from 2 to 3 points, with
an interpolation onto the singleton grid `[5]`. -/
theorem claim8_witness :
    (0 < ([(⟨[1, 2], (50, 50), [thru2, thru2]⟩ : Net2)] : List Net2).length ∧ 2 ≤ 3) ∧
    ((resampleW [⟨[1, 2], (50, 50), [thru2, thru2]⟩] 0 3).getD 0 default =
        resampleF (([(⟨[1, 2], (50, 50), [thru2, thru2]⟩ : Net2)] : List Net2).getD 0 default) 3 ∧
      (∀ j, j ≠ 0 → (resampleW [⟨[1, 2], (50, 50), [thru2, thru2]⟩] 0 3).getD j default =
        ([(⟨[1, 2], (50, 50), [thru2, thru2]⟩ : Net2)] : List Net2).getD j default) ∧
      (resampleF (([(⟨[1, 2], (50, 50), [thru2, thru2]⟩ : Net2)] : List Net2).getD 0 default) 3).freq.length = 3 ∧
      (interpolateW [⟨[1, 2], (50, 50), [thru2, thru2]⟩] 0 [5]).1 =
        [⟨[1, 2], (50, 50), [thru2, thru2]⟩] ∧
      (interpolateW [⟨[1, 2], (50, 50), [thru2, thru2]⟩] 0 [5]).2.freq = [5]) :=
  ⟨⟨by decide, by decide⟩,
   claim8_resample_in_place_interpolate_pure [⟨[1, 2], (50, 50), [thru2, thru2]⟩]
     0 3 [5] (by decide) (by decide)⟩

/-- Pointwise de-embedding across two equal-length S lists. -/
theorem zipWith_deembed :
    ∀ (as bs : List (S2 ℚ)), as.length = bs.length →
      (∀ x ∈ as, x.s12 ≠ 0 ∧ x.s21 ≠ 0 ∧ x.s12 * x.s21 - x.s11 * x.s22 ≠ 0) →
      (∀ p ∈ as.zip bs, 1 - p.1.s22 * p.2.s11 ≠ 0) →
      List.zipWith (fun x y => cascade2 (inv2 x) (cascade2 x y)) as bs = bs
  | [], [], _, _, _ => rfl
  | [], _ :: _, h, _, _ => by simp at h
  | _ :: _, [], h, _, _ => by simp at h
  | a :: as, b :: bs, h, hinv, hden => by
    rw [List.zipWith_cons_cons]
    have h1 := hinv a (List.mem_cons_self a as)
    have h2 := hden (a, b) (by simp [List.zip_cons_cons])
    rw [inv2_cascade2_deembed a b h1.1 h1.2.1 h1.2.2 h2,
      zipWith_deembed as bs (by simpa using h)
        (fun x hx => hinv x (List.mem_cons_of_mem a hx))
        (fun p hp => hden p (by simp [List.zip_cons_cons, hp]))]

/-- Every S list is approximately equal to itself. -/
theorem all_approx_self (s : List (S2 ℚ)) :
    (s.zip s).all (fun p => approxS2 p.1 p.2) = true := by
  induction s with
  | nil => rfl
  | cons x xs ih =>
    rw [List.zip_cons_cons, List.all_cons, ih, Bool.and_true]
    simp only [approxS2, approxQ, sub_self, abs_zero, tolQ]
    norm_num

/-- **C9**: `a == b` holds exactly when the S arrays agree element-wise
within the explicit tolerance and the `z0` and Frequency data agree
(never exact float equality alone); `a != b` is its negation; and a
de-embedded network compares equal to the original. -/
theorem claim9_equality_semantics (a b : Net2) (A B : Net2)
    (hlen : A.s.length = B.s.length)
    (hinv : ∀ x ∈ A.s, x.s12 ≠ 0 ∧ x.s21 ≠ 0 ∧ x.s12 * x.s21 - x.s11 * x.s22 ≠ 0)
    (hden : ∀ p ∈ A.s.zip B.s, 1 - p.1.s22 * p.2.s11 ≠ 0) :
    (eqNet a b = true ↔ a.freq = b.freq ∧ a.z0 = b.z0 ∧ a.s.length = b.s.length ∧
      ∀ p ∈ a.s.zip b.s, |p.1.s11 - p.2.s11| < tolQ ∧ |p.1.s12 - p.2.s12| < tolQ ∧
        |p.1.s21 - p.2.s21| < tolQ ∧ |p.1.s22 - p.2.s22| < tolQ) ∧
    (neNet a b = !eqNet a b) ∧
    eqNet (deembedNet A B) B = true := by
  refine ⟨?_, rfl, ?_⟩
  · simp only [eqNet, Bool.and_eq_true, decide_eq_true_eq, List.all_eq_true,
      approxS2, approxQ, and_assoc]
  · rw [deembedNet, eqNet]
    rw [zipWith_deembed A.s B.s hlen hinv hden]
    simp [all_approx_self]

/-- **C9** witness: equal one-point thru networks for the equality
characterisation, and the thru-record network de-embedded from itself. -/
theorem claim9_witness :
    ((⟨[1], (50, 50), [⟨0, 1, 1, 0⟩]⟩ : Net2).s.length =
      (⟨[1], (50, 50), [⟨0, 1, 1, 0⟩]⟩ : Net2).s.length) ∧
    eqNet (deembedNet ⟨[1], (50, 50), [⟨0, 1, 1, 0⟩]⟩
      ⟨[1], (50, 50), [⟨0, 1, 1, 0⟩]⟩) ⟨[1], (50, 50), [⟨0, 1, 1, 0⟩]⟩ = true :=
  ⟨rfl,
   (claim9_equality_semantics ⟨[1], (50, 50), [⟨0, 1, 1, 0⟩]⟩
     ⟨[1], (50, 50), [⟨0, 1, 1, 0⟩]⟩ ⟨[1], (50, 50), [⟨0, 1, 1, 0⟩]⟩
     ⟨[1], (50, 50), [⟨0, 1, 1, 0⟩]⟩ rfl
     (by
       intro x hx
       simp only [List.mem_singleton] at hx
       subst hx
       norm_num)
     (by
       intro p hp
       rw [List.zip_cons_cons] at hp
       rcases List.mem_cons.mp hp with h | h
       · subst h
         norm_num
       · simp at h)).2.2⟩

/-- **C10**: a Network constructed from frequency and S-parameters with
no explicit `z0` argument defaults every port's reference impedance to
50 Ω. -/
theorem claim10_default_z0 (s : ℕ → ℕ → K) (np p : ℕ) (hp : p < np) :
    (mkNetworkG s np none).z0.getD p 0 = 50 ∧ (mkNetworkG s np none).np = np := by
  constructor
  · show (List.replicate np (50 : K)).getD p 0 = 50
    rw [List.getD_eq_getElem?_getD, List.getElem?_replicate, if_pos hp,
      Option.getD_some]
  · show (List.replicate np (50 : K)).length = np
    rw [List.length_replicate]

/-- **C10** witness. -/
theorem claim10_witness :
    (0 < 2) ∧ ((mkNetworkG (fun _ _ => (0 : ℚ)) 2 none).z0.getD 0 0 = 50 ∧
      (mkNetworkG (fun _ _ => (0 : ℚ)) 2 none).np = 2) :=
  ⟨by decide, claim10_default_z0 (fun _ _ => (0 : ℚ)) 2 0 (by decide)⟩

end Skrf
